import Mathlib

/-!
Verification of the MBTA backend core against its specification.

This file gives a shallow embedding, translated from
`backend/app/services/mbta_client.py` and
`backend/app/services/cache_manager.py`, of:

* the shape-resolution filter inside `MBTAClient.get_shapes_for_route`
  (the spec's `ShapeResolver.resolve`),
* the aggregation logic of `MBTAClient.get_all_shapes_for_routes`
  (the spec's `RouteAggregator.aggregate`), and
* the TTL file cache `save_to_cache` / `load_from_cache`
  (the spec's `SnapshotCache`).

Python mutable state (the cache directory, the current clock) is passed
explicitly; fallible operations are modelled with `Option` / `Except`.
-/

namespace MBTA

/-- A raw shape record as consumed by `get_shapes_for_route`.  The code only
reads `shape["id"]` and `shape["attributes"]["polyline"]`, and only writes
`shape["attributes"]["_route_id"]`, so the attributes mapping is modelled by
those two fields. -/
structure ShapeRecord where
  id : String
  polyline : String
  routeIdAttr : Option String := none
deriving DecidableEq, Repr

/-- `len(shape["attributes"]["polyline"])` (mbta_client.py lines 373-375,
421-424). -/
def polyLen (s : ShapeRecord) : Nat := s.polyline.length

/-- Python `str.startswith`: the pattern's characters are a prefix of the
string's characters. -/
def strStartsWith (s pat : String) : Bool := pat.data.isPrefixOf s.data

/-- `shape.get("id", "").startswith("canonical-")` (mbta_client.py line 337). -/
def isCanonical (s : ShapeRecord) : Bool := strStartsWith s.id "canonical-"

/-- `shape["attributes"]["_route_id"] = route_id` (mbta_client.py lines
361-364 and 461-464). -/
def stamp (routeId : String) (s : ShapeRecord) : ShapeRecord :=
  { s with routeIdAttr := some routeId }

/-- Python `str.replace(pat, "")` for a non-empty pattern: removes every
non-overlapping occurrence of `pat`, scanning left to right.  `fuel` is the
length of the remaining input, making the recursion structural. -/
def removePatAux (pat : List Char) : Nat → List Char → List Char
  | _, [] => []
  | 0, l => l
  | fuel + 1, c :: rest =>
    if pat.isPrefixOf (c :: rest) then removePatAux pat fuel (rest.drop (pat.length - 1))
    else c :: removePatAux pat fuel rest

/-- Python `i.replace(pat, "")`. -/
def strRemoveAll (i pat : String) : String :=
  String.mk (removePatAux pat.data i.data.length i.data)

/-- The dedup key of mbta_client.py lines 401-408: `id.replace("canonical-", "")`
when the id starts with `canonical-` (Python `str.replace` removes every
occurrence, not only the leading one), the id itself otherwise. -/
def stripId (i : String) : String :=
  if strStartsWith i "canonical-" then strRemoveAll i "canonical-" else i

/-- Dedup key of the final deduplication pass (mbta_client.py lines 398-411). -/
def strippedKey (s : ShapeRecord) : String := stripId s.id

/-- First-seen-wins deduplication with an explicit `seen_ids` accumulator,
as in mbta_client.py lines 347-354 and 398-411. -/
def dedupByKey (key : ShapeRecord → String) :
    List ShapeRecord → List String → List ShapeRecord
  | [], _ => []
  | s :: rest, seen =>
    if key s ∈ seen then dedupByKey key rest seen
    else s :: dedupByKey key rest (key s :: seen)

/-- One insertion step of a stable sort by polyline length, descending.
A record is placed before the first record whose length is ≤ its own, so
records of equal length keep their input order — the behaviour of Python's
stable `list.sort(key=lambda x: x[0], reverse=True)`. -/
def insertByLenDesc (x : ShapeRecord) : List ShapeRecord → List ShapeRecord
  | [] => [x]
  | y :: ys => if polyLen y ≤ polyLen x then x :: y :: ys else y :: insertByLenDesc x ys

/-- `shapes_with_length.sort(key=lambda x: x[0], reverse=True)`
(mbta_client.py lines 379 and 427): stable sort by polyline length,
descending. -/
def sortByLenDesc : List ShapeRecord → List ShapeRecord
  | [] => []
  | x :: xs => insertByLenDesc x (sortByLenDesc xs)

/-- `lengths[0]` of the descending-sorted list (mbta_client.py line 437). -/
def headLen : List ShapeRecord → Nat
  | [] => 0
  | s :: _ => polyLen s

/-- `lengths[-1]` of the descending-sorted list (mbta_client.py line 438). -/
def lastLen : List ShapeRecord → Nat
  | [] => 0
  | [s] => polyLen s
  | _ :: s :: rest => lastLen (s :: rest)

/-- The longest-polyline fallback, mbta_client.py lines 369-393.  It fires
when there are more than 2 deduplicated canonical shapes on a non-Red route,
or no canonical shapes at all.  `canonical1` is the exact-id-deduplicated
canonical subset computed by the caller.  Shapes with an empty polyline are
skipped (`if polyline:`). -/
def fallbackRank (isRed : Bool) (allShapes canonical1 : List ShapeRecord) :
    List ShapeRecord :=
  if (2 < canonical1.length ∧ isRed = false) ∨ canonical1 = [] then
    let swl := sortByLenDesc (allShapes.filter (fun s => s.polyline != ""))
    if swl = [] then canonical1
    else if canonical1 = [] then
      swl.take (min 2 swl.length)
    else
      match swl.filter (fun s => !((canonical1.map (fun c => c.id)).contains s.id)) with
      | [] => canonical1
      | s :: _ => canonical1 ++ [s]
  else canonical1

/-- The branch-vs-direction decision, mbta_client.py lines 419-458, applied
to the deduplicated candidate list.  `lengths[0]` is the maximum and
`lengths[-1]` the minimum of the descending-sorted lengths.  The Python
float test `(max - min) / max >= 0.15` (with ratio 0 when `max == 0`) is
modelled exactly over the integers as `3 * max ≤ 20 * (max - min)` guarded by
`0 < max`; for polyline lengths far below 2^50 the double-precision and the
exact comparison agree. -/
def branchDecision (isRed : Bool) (canonical3 : List ShapeRecord) :
    List ShapeRecord :=
  if 1 < canonical3.length then
    let swl := sortByLenDesc canonical3
    if 2 ≤ swl.length then
      if isRed = true then swl.take 5
      else if 0 < headLen swl ∧ 3 * headLen swl ≤ 20 * (headLen swl - lastLen swl) then
        swl.take 3
      else swl.take 1
    else swl
  else canonical3

/-- The filtering pipeline of `get_shapes_for_route` (mbta_client.py lines
333-458), before the final `_route_id` stamping, with
`isRed = (route_id == "Red")`.  The Python code deduplicates the canonical
subset only when it is non-empty, which coincides with deduplicating
unconditionally. -/
def resolveCore (isRed : Bool) (allShapes : List ShapeRecord) :
    List ShapeRecord :=
  if allShapes = [] then []
  else
    let canonical1 := dedupByKey (fun s => s.id) (allShapes.filter isCanonical) []
    if isRed = true ∧ 2 ≤ canonical1.length then canonical1
    else
      let canonical2 := fallbackRank isRed allShapes canonical1
      let finalShapes := dedupByKey strippedKey canonical2 []
      let canonical3 := if finalShapes = [] then canonical2 else finalShapes
      branchDecision isRed canonical3

/-- `get_shapes_for_route`'s pure filtering (the spec's
`ShapeResolver.resolve`): the pipeline above followed by stamping the route
id into every returned record's attributes — each of the code's return
points stamps the list it returns. -/
def resolve (routeId : String) (allShapes : List ShapeRecord) :
    List ShapeRecord :=
  (resolveCore (routeId == "Red") allShapes).map (stamp routeId)

/-- The raw shapes of the spec's route-`"99"` example scenario: five
non-canonical records with distinct ids and polyline lengths 50, 48, 10,
9, 8. -/
def c1shape50 : ShapeRecord :=
  ⟨"shape-a", "pppppppppppppppppppppppppppppppppppppppppppppppppp", none⟩

def c1shape48 : ShapeRecord :=
  ⟨"shape-b", "pppppppppppppppppppppppppppppppppppppppppppppppp", none⟩

def c1shape10 : ShapeRecord := ⟨"shape-c", "pppppppppp", none⟩

def c1shape9 : ShapeRecord := ⟨"shape-d", "ppppppppp", none⟩

def c1shape8 : ShapeRecord := ⟨"shape-e", "pppppppp", none⟩

def c1shapes : List ShapeRecord :=
  [c1shape50, c1shape48, c1shape10, c1shape9, c1shape8]

/-! ### SnapshotCache (`cache_manager.py`) -/

/-- JSON-serializable payloads, as stored by `save_to_cache` (floats are not
used by the cached payloads and are omitted; object keys are strings, as
JSON requires). -/
inductive Json where
  | null
  | bool (b : Bool)
  | num (n : Int)
  | str (s : String)
  | arr (xs : List Json)
  | obj (kvs : List (String × Json))

/-- `cache_data.get("data")` returns the Python value of the data field;
a stored JSON `null` *is* Python `None`.  `none` here encodes Python `None`. -/
def dataToPython : Json → Option Json
  | Json.null => none
  | d => some d

/-- The Python value denoted by a `load_from_cache` result: Python has no
option type, so an absent result and a stored `null` are the same object,
`None`. -/
def pythonValue : Option Json → Json
  | none => Json.null
  | some d => d

/-- `CACHE_EXPIRY_HOURS = 168` (cache_manager.py line 14). -/
def CACHE_EXPIRY_HOURS : Nat := 168

/-- The TTL of `is_cache_valid` in seconds; instants are modelled as integer
second counts (cache_manager.py lines 35-38). -/
def cacheTTL : Int := (CACHE_EXPIRY_HOURS : Int) * 3600

/-- One cache file: its modification time and the `data` field of its parsed
JSON content.  `parsed = none` models a file that `json.load` cannot parse
(or that parses without a `data` field, which `cache_data.get("data")`
likewise turns into `None`). -/
structure CacheFile where
  mtime : Int
  parsed : Option Json

/-- The cache directory, as a mapping from cache key to the file stored for
that key (`none`: no such file). -/
def FileSys : Type := String → Option CacheFile

/-- `is_cache_valid` (cache_manager.py lines 29-38): the file exists and
`now - file_time < timedelta(hours=168)`. -/
def is_cache_valid (fs : FileSys) (now : Int) (key : String) : Bool :=
  match fs key with
  | none => false
  | some f => decide (now - f.mtime < cacheTTL)

/-- `load_from_cache` (cache_manager.py lines 71-95).  Total: every failure
path of the Python code is caught and converted to `None`. -/
def load_from_cache (fs : FileSys) (now : Int) (key : String) : Option Json :=
  if is_cache_valid fs now key then
    match fs key with
    | none => none
    | some f =>
      match f.parsed with
      | none => none
      | some d => dataToPython d
  else none

/-- `save_to_cache` (cache_manager.py lines 41-68): replaces the file for
`key` with `{"timestamp": now, "data": data}` whose modification time is
`now`, and reports success.  (The `timestamp` field is never read back by
`load_from_cache`, which uses the file modification time, so it is not
modelled separately.)  The I/O-failure path returns the file system
unchanged and `false`; the successful write is the path modelled here. -/
def save_to_cache (fs : FileSys) (now : Int) (key : String) (data : Json) :
    FileSys × Bool :=
  (fun k => if k = key then some ⟨now, some data⟩ else fs k, true)

/-- A parseable cache file whose modification time is the epoch of the
model's clock. -/
def c6file : CacheFile := ⟨0, some (Json.str "v")⟩

/-- A cache directory holding exactly the file `c6file` under the key
`cache-key`; probing it at instant `cacheTTL` makes the file's age exactly
the TTL. -/
def c6fs : FileSys := fun k => if k = "cache-key" then some c6file else none

/-- A cache directory holding one fresh, parseable file with a non-null
payload. -/
def c6freshFs : FileSys :=
  fun k => if k = "cache-key-w" then some ⟨0, some (Json.str "payload")⟩ else none

/-! ### RouteAggregator (`get_all_shapes_for_routes`, mbta_client.py) -/

/-- The merged aggregate: the flat shape list and the
`shape_to_route` index.  The Python index is a dict written in iteration
order; it is modelled as the association list of its assignments in that
order (the claims never read it through duplicate keys). -/
structure AggregateResult where
  data : List ShapeRecord
  shape_to_route : List (String × String)
deriving DecidableEq

/-- `"shapes_" + "_".join(sorted(route_ids))` (mbta_client.py line 487):
route ids sorted ascending lexicographically. -/
def shapesCacheKey (route_ids : List String) : String :=
  "shapes_" ++ String.intercalate "_" (List.insertionSort (fun a b => a ≤ b) route_ids)

/-- The fan-in loop of mbta_client.py lines 501-517: walk
`zip(route_ids, shape_results)` in order; a task that raised is skipped
(logged and omitted), a successful task's shapes are stamped with the route
id, appended to `all_shapes`, and indexed in `shape_to_route`. -/
def mergeShapeResults :
    List (String × Except Unit (List ShapeRecord)) → AggregateResult
  | [] => ⟨[], []⟩
  | (_, Except.error _) :: rest => mergeShapeResults rest
  | (rid, Except.ok shapes) :: rest =>
    let r := mergeShapeResults rest
    ⟨shapes.map (stamp rid) ++ r.data,
      shapes.map (fun s => (s.id, rid)) ++ r.shape_to_route⟩

/-- `get_all_shapes_for_routes` (mbta_client.py lines 468-530).  `cache` is
the read view of the snapshot cache; `shape_results` are the outcomes of
the `asyncio.gather(..., return_exceptions=True)` fan-out, one per route id
in order: `Except.error` models a task that raised.  The trailing
`save_to_cache` call does not change the returned value and is not part of
this read model.  Total: a failed task never raises past the aggregator. -/
def get_all_shapes_for_routes (cache : String → Option AggregateResult)
    (route_ids : List String)
    (shape_results : List (Except Unit (List ShapeRecord))) : AggregateResult :=
  if route_ids = [] then ⟨[], []⟩
  else
    match cache (shapesCacheKey route_ids) with
    | some cached => cached
    | none => mergeShapeResults (route_ids.zip shape_results)

/-! ### Helper lemmas -/

theorem dedupByKey_ne_nil (key : ShapeRecord → String) (s : ShapeRecord)
    (rest : List ShapeRecord) : dedupByKey key (s :: rest) [] ≠ [] := by
  simp [dedupByKey]

theorem dedupByKey_of_nodup (key : ShapeRecord → String) :
    ∀ (l : List ShapeRecord) (seen : List String),
      (l.map key).Nodup → (∀ s ∈ l, key s ∉ seen) → dedupByKey key l seen = l := by
  intro l
  induction l with
  | nil => intro seen _ _; rfl
  | cons s rest ih =>
    intro seen hnd hsn
    have hnd' : (key s :: rest.map key).Nodup := by simpa using hnd
    have h1 : key s ∉ seen := hsn s (List.mem_cons_self s rest)
    rw [dedupByKey, if_neg h1]
    congr 1
    apply ih
    · exact (List.nodup_cons.mp hnd').2
    · intro t ht
      simp only [List.mem_cons, not_or]
      refine ⟨fun he => ?_, hsn t (List.mem_cons_of_mem s ht)⟩
      exact (List.nodup_cons.mp hnd').1 (he ▸ List.mem_map_of_mem key ht)

theorem insertByLenDesc_perm (x : ShapeRecord) (l : List ShapeRecord) :
    (insertByLenDesc x l).Perm (x :: l) := by
  induction l with
  | nil => exact List.Perm.refl _
  | cons y ys ih =>
    unfold insertByLenDesc
    split
    · exact List.Perm.refl _
    · exact (ih.cons y).trans (List.Perm.swap x y ys)

theorem sortByLenDesc_perm (l : List ShapeRecord) : (sortByLenDesc l).Perm l := by
  induction l with
  | nil => exact List.Perm.refl _
  | cons x xs ih => exact (insertByLenDesc_perm x (sortByLenDesc xs)).trans (ih.cons x)

theorem dedupByKey_key_nodup (key : ShapeRecord → String) :
    ∀ (l : List ShapeRecord) (seen : List String),
      ((dedupByKey key l seen).map key).Nodup
      ∧ ∀ s ∈ dedupByKey key l seen, key s ∉ seen := by
  intro l
  induction l with
  | nil => intro seen; exact ⟨List.nodup_nil, by intro s hs; cases hs⟩
  | cons s rest ih =>
    intro seen
    by_cases hks : key s ∈ seen
    · rw [dedupByKey, if_pos hks]
      exact ih seen
    · rw [dedupByKey, if_neg hks]
      obtain ⟨ihn, ihs⟩ := ih (key s :: seen)
      refine ⟨?_, ?_⟩
      · rw [List.map_cons, List.nodup_cons]
        refine ⟨fun hmem => ?_, ihn⟩
        obtain ⟨t, ht, hkey⟩ := List.mem_map.mp hmem
        exact ihs t ht (by rw [hkey]; exact List.mem_cons_self _ _)
      · intro t ht
        rcases List.mem_cons.mp ht with he | hm
        · rw [he]; exact hks
        · intro hts
          exact ihs t hm (List.mem_cons_of_mem _ hts)

theorem dedupByKey_nil_of_eq_nil (key : ShapeRecord → String)
    (l : List ShapeRecord) (h : dedupByKey key l [] = []) : l = [] := by
  cases l with
  | nil => rfl
  | cons s rest => exact absurd h (dedupByKey_ne_nil key s rest)

/-- The branch-vs-direction step only reorders and drops candidates, so it
preserves distinctness of ids. -/
theorem branchDecision_id_nodup (isRed : Bool) (c3 : List ShapeRecord)
    (h : (c3.map (fun s => s.id)).Nodup) :
    ((branchDecision isRed c3).map (fun s => s.id)).Nodup := by
  have hsort : ((sortByLenDesc c3).map (fun s => s.id)).Nodup :=
    (((sortByLenDesc_perm c3).map (fun s => s.id)).nodup_iff).mpr h
  have htake : ∀ n, (((sortByLenDesc c3).take n).map (fun s => s.id)).Nodup := by
    intro n
    have hsub : ((sortByLenDesc c3).take n).Sublist (sortByLenDesc c3) :=
      List.take_sublist n (sortByLenDesc c3)
    exact List.Nodup.sublist (hsub.map (fun s => s.id)) hsort
  simp only [branchDecision]
  split
  · split
    · split
      · exact htake 5
      · split
        · exact htake 3
        · exact htake 1
    · exact hsort
  · exact h

/-- The stripped-id deduplication yields pairwise distinct exact ids: equal
ids would give equal stripped keys. -/
theorem dedupStripped_id_nodup (canonical2 : List ShapeRecord) :
    (((if dedupByKey strippedKey canonical2 [] = [] then canonical2
      else dedupByKey strippedKey canonical2 []).map (fun s => s.id))).Nodup := by
  split
  · rename_i hnil
    rw [dedupByKey_nil_of_eq_nil strippedKey canonical2 hnil]
    exact List.nodup_nil
  · have h1 := (dedupByKey_key_nodup strippedKey canonical2 []).1
    apply List.Nodup.of_map stripId
    have hm : ((dedupByKey strippedKey canonical2 []).map (fun s => s.id)).map stripId
        = (dedupByKey strippedKey canonical2 []).map strippedKey := by
      rw [List.map_map]
      rfl
    rw [hm]
    exact h1

/-- The resolver never returns two records with the same id. -/
theorem resolveCore_id_nodup (isRed : Bool) (allShapes : List ShapeRecord) :
    ((resolveCore isRed allShapes).map (fun s => s.id)).Nodup := by
  simp only [resolveCore]
  split
  · exact List.nodup_nil
  · split
    · exact (dedupByKey_key_nodup (fun s => s.id) _ []).1
    · exact branchDecision_id_nodup isRed _ (dedupStripped_id_nodup _)

theorem countP_id_le_one_of_nodup (i : String) :
    ∀ l : List ShapeRecord, (l.map (fun s => s.id)).Nodup →
      l.countP (fun s => s.id == i) ≤ 1 := by
  intro l
  induction l with
  | nil => intro _; simp [List.countP_nil]
  | cons s rest ih =>
    intro h
    have h' : (s.id :: rest.map (fun s => s.id)).Nodup := by simpa using h
    obtain ⟨hhead, htail⟩ := List.nodup_cons.mp h'
    rw [List.countP_cons]
    by_cases hc : s.id = i
    · have hzero : rest.countP (fun s => s.id == i) = 0 := by
        rw [List.countP_eq_zero]
        intro t ht hti
        apply hhead
        rw [hc]
        have : t.id = i := by simpa using hti
        rw [← this]
        exact List.mem_map_of_mem (fun s => s.id) ht
      simp [hzero, hc]
    · have : (s.id == i) = false := by simpa using hc
      simp only [this, if_false, Nat.add_zero]
      exact ih htail

/-- The Red-Line fast path of mbta_client.py lines 342-366: with at least two
deduplicated canonical shapes, `resolveCore true` returns exactly that
deduplicated canonical subset. -/
theorem resolveCore_red_fast (allShapes : List ShapeRecord)
    (h : 2 ≤ (dedupByKey (fun s => s.id) (allShapes.filter isCanonical) []).length) :
    resolveCore true allShapes
      = dedupByKey (fun s => s.id) (allShapes.filter isCanonical) [] := by
  have hne : allShapes ≠ [] := by
    intro he
    rw [he] at h
    simp [dedupByKey] at h
  unfold resolveCore
  rw [if_neg hne, if_pos ⟨rfl, h⟩]

/-! ### Claims -/

/-- C3: for routeId `"Red"`, whenever the canonical-prefixed shapes, after
stable first-seen-wins dedup by exact id, contain at least 2 records,
`resolve` returns that entire deduplicated canonical subset with the route
id stamped into each record's attributes, in particular at least 2
records. -/
theorem c3_red_branch_preservation (allShapes : List ShapeRecord)
    (h : 2 ≤ (dedupByKey (fun s => s.id) (allShapes.filter isCanonical) []).length) :
    resolve "Red" allShapes
      = (dedupByKey (fun s => s.id) (allShapes.filter isCanonical) []).map (stamp "Red")
    ∧ 2 ≤ (resolve "Red" allShapes).length := by
  have hcore := resolveCore_red_fast allShapes h
  have hres : resolve "Red" allShapes
      = (dedupByKey (fun s => s.id) (allShapes.filter isCanonical) []).map (stamp "Red") := by
    unfold resolve
    rw [show ("Red" == "Red") = true from rfl, hcore]
  refine ⟨hres, ?_⟩
  rw [hres, List.length_map]
  exact h

theorem c3_red_branch_preservation_witness :
    resolve "Red" [⟨"canonical-933_0009", "pppp", none⟩, ⟨"canonical-933_0010", "ppp", none⟩]
      = [⟨"canonical-933_0009", "pppp", some "Red"⟩, ⟨"canonical-933_0010", "ppp", some "Red"⟩]
    ∧ 2 ≤ (resolve "Red"
        [⟨"canonical-933_0009", "pppp", none⟩, ⟨"canonical-933_0010", "ppp", none⟩]).length := by
  have h := c3_red_branch_preservation
    [⟨"canonical-933_0009", "pppp", none⟩, ⟨"canonical-933_0010", "ppp", none⟩] (by decide)
  exact ⟨by rw [h.1]; rfl, h.2⟩

/-- C9: for routeId `"Red"` with `n ≥ 2` canonical shapes of pairwise
distinct ids, `resolve` returns exactly `n` records — the canonical fast
path returns before the 5-shape cap, so the result is not capped at 5. -/
theorem c9_red_uncapped (allShapes : List ShapeRecord)
    (hnodup : ((allShapes.filter isCanonical).map (fun s => s.id)).Nodup)
    (h2 : 2 ≤ (allShapes.filter isCanonical).length) :
    (resolve "Red" allShapes).length = (allShapes.filter isCanonical).length := by
  have hd : dedupByKey (fun s => s.id) (allShapes.filter isCanonical) []
      = allShapes.filter isCanonical :=
    dedupByKey_of_nodup _ _ _ hnodup (by intro s _; simp)
  have hcore := resolveCore_red_fast allShapes (by rw [hd]; exact h2)
  unfold resolve
  rw [show ("Red" == "Red") = true from rfl, hcore, hd, List.length_map]

theorem c9_red_uncapped_witness :
    (resolve "Red" [⟨"canonical-1", "p", none⟩, ⟨"canonical-2", "p", none⟩,
      ⟨"canonical-3", "p", none⟩, ⟨"canonical-4", "p", none⟩,
      ⟨"canonical-5", "p", none⟩, ⟨"canonical-6", "p", none⟩]).length = 6
    ∧ 5 < (resolve "Red" [⟨"canonical-1", "p", none⟩, ⟨"canonical-2", "p", none⟩,
      ⟨"canonical-3", "p", none⟩, ⟨"canonical-4", "p", none⟩,
      ⟨"canonical-5", "p", none⟩, ⟨"canonical-6", "p", none⟩]).length := by
  have h := c9_red_uncapped [⟨"canonical-1", "p", none⟩, ⟨"canonical-2", "p", none⟩,
    ⟨"canonical-3", "p", none⟩, ⟨"canonical-4", "p", none⟩,
    ⟨"canonical-5", "p", none⟩, ⟨"canonical-6", "p", none⟩] (by decide) (by decide)
  exact ⟨by rw [h]; decide, by rw [h]; decide⟩

/-- C10: for every route id, if the canonical-prefixed shapes reduce to
exactly one record after exact-id dedup, `resolve` returns exactly that one
canonical record with the route id stamped, regardless of the non-canonical
shapes in the input. -/
theorem c10_single_canonical_wins (routeId : String) (allShapes : List ShapeRecord)
    (c : ShapeRecord)
    (h : dedupByKey (fun s => s.id) (allShapes.filter isCanonical) [] = [c]) :
    resolve routeId allShapes = [stamp routeId c] := by
  have hne : allShapes ≠ [] := by
    intro he
    rw [he] at h
    simp [dedupByKey] at h
  simp [resolve, resolveCore, hne, h, fallbackRank, branchDecision, dedupByKey]

theorem c10_single_canonical_wins_witness :
    resolve "77" [⟨"x", "pppppppppp", none⟩, ⟨"canonical-Z", "pp", none⟩,
      ⟨"y", "ppppppppp", none⟩]
      = [⟨"canonical-Z", "pp", some "77"⟩] := by
  exact c10_single_canonical_wins "77"
    [⟨"x", "pppppppppp", none⟩, ⟨"canonical-Z", "pp", none⟩, ⟨"y", "ppppppppp", none⟩]
    ⟨"canonical-Z", "pp", none⟩ (by decide)

/-- C5: on a cache miss for routes `[A, B, C]`, if the task for `C` failed
while the tasks for `A` and `B` succeeded, the aggregation returns exactly
the merged (stamped) shapes of `A` and `B`; the aggregator is a total
function, so no error propagates to the caller. -/
theorem c5_partial_failure_isolation (cache : String → Option AggregateResult)
    (A B C : String) (sa sb : List ShapeRecord)
    (hmiss : cache (shapesCacheKey [A, B, C]) = none) :
    (get_all_shapes_for_routes cache [A, B, C]
        [Except.ok sa, Except.ok sb, Except.error ()]).data
      = sa.map (stamp A) ++ sb.map (stamp B) := by
  simp [get_all_shapes_for_routes, hmiss, mergeShapeResults]

theorem c5_partial_failure_isolation_witness :
    (get_all_shapes_for_routes (fun _ => none) ["A", "B", "C"]
        [Except.ok [⟨"s1", "pp", none⟩], Except.ok [⟨"s2", "p", none⟩],
          Except.error ()]).data
      = [⟨"s1", "pp", some "A"⟩, ⟨"s2", "p", some "B"⟩] := by
  have h := c5_partial_failure_isolation (fun _ => none) "A" "B" "C"
    [⟨"s1", "pp", none⟩] [⟨"s2", "p", none⟩] rfl
  rw [h]
  rfl

/-- C7: a successful `save_to_cache` followed immediately by
`load_from_cache` for the same key yields a Python value equal to the saved
payload (a freshly written file has age 0, below the TTL). -/
theorem c7_cache_roundtrip (fs : FileSys) (now : Int) (k : String) (v : Json) :
    (save_to_cache fs now k v).2 = true
    ∧ pythonValue (load_from_cache (save_to_cache fs now k v).1 now k) = v := by
  refine ⟨rfl, ?_⟩
  have hfs : (save_to_cache fs now k v).1 k = some ⟨now, some v⟩ := by
    simp [save_to_cache]
  have hv : is_cache_valid (save_to_cache fs now k v).1 now k = true := by
    unfold is_cache_valid
    rw [hfs]
    simp only [Int.sub_self, decide_eq_true_eq]
    decide
  unfold load_from_cache
  rw [hv, if_pos rfl, hfs]
  cases v <;> rfl

/-- C8: the cache key of the aggregation is the sorted route ids joined by
`_` and prefixed with `shapes_`; any two duplicate-free lists with the same
members produce the same key. -/
theorem c8_key_order_independent (l₁ l₂ : List String)
    (h₁ : l₁.Nodup) (h₂ : l₂.Nodup) (hmem : ∀ x, x ∈ l₁ ↔ x ∈ l₂) :
    shapesCacheKey l₁ = shapesCacheKey l₂ := by
  have hp : l₁.Perm l₂ := (List.perm_ext_iff_of_nodup h₁ h₂).mpr hmem
  have hs : List.insertionSort (fun a b => a ≤ b) l₁
      = List.insertionSort (fun a b => a ≤ b) l₂ :=
    List.eq_of_perm_of_sorted
      ((List.perm_insertionSort _ l₁).trans (hp.trans (List.perm_insertionSort _ l₂).symm))
      (List.sorted_insertionSort _ l₁) (List.sorted_insertionSort _ l₂)
  unfold shapesCacheKey
  rw [hs]

theorem c8_key_order_independent_witness :
    shapesCacheKey ["B", "A"] = shapesCacheKey ["A", "B"] := by
  exact c8_key_order_independent ["B", "A"] ["A", "B"] (by decide) (by decide)
    (by intro x; constructor <;> (intro hx; simp only [List.mem_cons] at hx ⊢; tauto))

/-- C2 (as stated) is false: with two records of identical id `"X"` and
empty polylines, the fallback ranking skips empty polylines and `resolve`
returns no record at all with that id, not exactly one. -/
theorem c2_exactly_one_counterexample :
    ((resolve "99" [⟨"X", "", none⟩, ⟨"X", "", none⟩]).countP
      (fun s => s.id == "X")) ≠ 1 := by
  decide

/-- C2 amended: for every input containing two records with identical id,
`resolve` returns at most one record with that id (duplicates may also be
dropped entirely, so "exactly one" does not hold). -/
theorem c2_dedup_at_most_one (routeId : String) (shapes : List ShapeRecord)
    (i : String) (_hdup : 2 ≤ shapes.countP (fun s => s.id == i)) :
    (resolve routeId shapes).countP (fun s => s.id == i) ≤ 1 := by
  apply countP_id_le_one_of_nodup
  have hids : (resolve routeId shapes).map (fun s => s.id)
      = (resolveCore (routeId == "Red") shapes).map (fun s => s.id) := by
    unfold resolve
    rw [List.map_map]
    rfl
  rw [hids]
  exact resolveCore_id_nodup (routeId == "Red") shapes

theorem c2_dedup_at_most_one_witness :
    (resolve "99" [⟨"X", "pppp", none⟩, ⟨"X", "ppp", none⟩]).countP
      (fun s => s.id == "X") ≤ 1 := by
  exact c2_dedup_at_most_one "99" [⟨"X", "pppp", none⟩, ⟨"X", "ppp", none⟩] "X"
    (by decide)

/-- C1 (as stated) is false: on the example input the fallback ranking does
keep the top 2 by length, but the subsequent branch-vs-direction step sees a
length-difference ratio of 2/50 < 0.15 and collapses them to the single
longest record, so `resolve` returns 1 record, not the claimed 2. -/
theorem c1_top_two_counterexample : (resolve "99" c1shapes).length ≠ 2 := by
  decide

/-- C1 amended: for a non-Red route on the five-record example input,
`resolve` returns exactly one record — the one with polyline length 50 —
because the direction-collapse stage reduces the fallback's top two to the
single longest. -/
theorem c1_fallback_then_collapse (routeId : String) (h : routeId ≠ "Red") :
    resolve routeId c1shapes = [stamp routeId c1shape50] := by
  have hb : (routeId == "Red") = false := beq_eq_false_iff_ne.mpr h
  unfold resolve
  rw [hb]
  have hc : resolveCore false c1shapes = [c1shape50] := by decide
  rw [hc]
  rfl

theorem c1_fallback_then_collapse_witness :
    resolve "99" c1shapes = [stamp "99" c1shape50] :=
  c1_fallback_then_collapse "99" (by decide)

/-- On two canonical shapes with distinct stripped ids and `isRed = false`,
the pipeline reaches the branch-vs-direction decision with both shapes. -/
theorem resolveCore_pair (u v : ShapeRecord)
    (hcu : isCanonical u = true) (hcv : isCanonical v = true)
    (hkey : strippedKey u ≠ strippedKey v) :
    resolveCore false [u, v] = branchDecision false [u, v] := by
  have hid : ¬ (v.id = u.id) := fun he => hkey (by unfold strippedKey; rw [he])
  have hkey' : ¬ (strippedKey v = strippedKey u) := fun he => hkey he.symm
  simp [resolveCore, fallbackRank, dedupByKey, hcu, hcv, hid, hkey']

/-- With strictly different polyline lengths whose exact difference ratio is
below 0.15, the branch-vs-direction decision keeps only the longer shape,
whichever order the two candidates arrive in. -/
theorem branchDecision_pair_collapse (x y : ShapeRecord)
    (hlen : polyLen y < polyLen x)
    (hr : 20 * (polyLen x - polyLen y) < 3 * polyLen x) :
    branchDecision false [x, y] = [x] ∧ branchDecision false [y, x] = [x] := by
  have hle : polyLen y ≤ polyLen x := le_of_lt hlen
  have hnle : ¬ (polyLen x ≤ polyLen y) := not_le.mpr hlen
  have hsort1 : sortByLenDesc [x, y] = [x, y] := by
    simp [sortByLenDesc, insertByLenDesc, hle]
  have hsort2 : sortByLenDesc [y, x] = [x, y] := by
    simp [sortByLenDesc, insertByLenDesc, hnle]
  have hcond : ¬ (0 < headLen [x, y]
      ∧ 3 * headLen [x, y] ≤ 20 * (headLen [x, y] - lastLen [x, y])) := by
    intro hand
    have h1 : headLen [x, y] = polyLen x := rfl
    have h2 : lastLen [x, y] = polyLen y := rfl
    rw [h1, h2] at hand
    exact absurd hand.2 (not_le.mpr hr)
  constructor
  · simp [branchDecision, hsort1, hcond]
  · simp [branchDecision, hsort2, hcond]

/-- C4: for a non-Red route with exactly two canonical shapes of distinct
stripped ids whose polyline lengths differ (by less than 15% of the longer,
compared exactly), `resolve` returns exactly one record — the longer one,
stamped — for either input order. -/
theorem c4_direction_collapse (routeId : String) (sa sb : ShapeRecord)
    (hred : routeId ≠ "Red")
    (hca : isCanonical sa = true) (hcb : isCanonical sb = true)
    (hkey : strippedKey sa ≠ strippedKey sb)
    (hlen : polyLen sb < polyLen sa)
    (hr : 20 * (polyLen sa - polyLen sb) < 3 * polyLen sa) :
    resolve routeId [sa, sb] = [stamp routeId sa]
    ∧ resolve routeId [sb, sa] = [stamp routeId sa] := by
  have hb : (routeId == "Red") = false := beq_eq_false_iff_ne.mpr hred
  have hpair1 := resolveCore_pair sa sb hca hcb hkey
  have hpair2 := resolveCore_pair sb sa hcb hca (fun he => hkey he.symm)
  have hbd := branchDecision_pair_collapse sa sb hlen hr
  constructor
  · unfold resolve
    rw [hb, hpair1, hbd.1]
    rfl
  · unfold resolve
    rw [hb, hpair2, hbd.2]
    rfl

theorem c4_direction_collapse_witness :
    resolve "99" [⟨"canonical-A", "pppppppppppppppppppppppppppppppppppppppppppppppppp", none⟩,
        ⟨"canonical-B", "pppppppppppppppppppppppppppppppppppppppppppppppp", none⟩]
      = [⟨"canonical-A", "pppppppppppppppppppppppppppppppppppppppppppppppppp", some "99"⟩]
    ∧ resolve "99" [⟨"canonical-B", "pppppppppppppppppppppppppppppppppppppppppppppppp", none⟩,
        ⟨"canonical-A", "pppppppppppppppppppppppppppppppppppppppppppppppppp", none⟩]
      = [⟨"canonical-A", "pppppppppppppppppppppppppppppppppppppppppppppppppp", some "99"⟩] :=
  c4_direction_collapse "99"
    ⟨"canonical-A", "pppppppppppppppppppppppppppppppppppppppppppppppppp", none⟩
    ⟨"canonical-B", "pppppppppppppppppppppppppppppppppppppppppppppppp", none⟩
    (by decide) (by decide) (by decide) (by decide) (by decide) (by decide)

theorem dataToPython_of_ne_null (d : Json) (h : d ≠ Json.null) :
    dataToPython d = some d := by
  cases d with
  | null => exact absurd rfl h
  | bool b => rfl
  | num n => rfl
  | str s => rfl
  | arr xs => rfl
  | obj kvs => rfl

theorem load_eq_of_some (fs : FileSys) (now : Int) (k : String) (f : CacheFile)
    (hfk : fs k = some f) :
    load_from_cache fs now k
      = if now - f.mtime < cacheTTL then
          (match f.parsed with
            | none => none
            | some d => dataToPython d)
        else none := by
  unfold load_from_cache is_cache_valid
  rw [hfk]
  by_cases hv : now - f.mtime < cacheTTL <;> simp [hv]

/-- C6 (as stated) is false at the TTL boundary: a parseable file whose age
is exactly 168 hours is treated as absent by `is_cache_valid` (which
requires age strictly below the TTL) although none of the claim's
conditions — no file, age strictly exceeding the TTL, unparseable — holds. -/
theorem c6_absent_iff_counterexample :
    ¬ ((load_from_cache c6fs cacheTTL "cache-key" = none) ↔
      (c6fs "cache-key" = none
        ∨ cacheTTL < cacheTTL - c6file.mtime
        ∨ c6file.parsed = none)) := by
  intro h
  have hnone : load_from_cache c6fs cacheTTL "cache-key" = none := by rfl
  rcases h.mp hnone with h1 | h2 | h3
  · simp [c6fs] at h1
  · rw [show c6file.mtime = 0 from rfl, Int.sub_zero] at h2
    exact absurd h2 (lt_irrefl cacheTTL)
  · simp [c6file] at h3

/-- C6 amended: `load_from_cache` returns `None` iff no file exists for the
key, or the file's age is at least (not strictly above) the 168-hour TTL,
or the file cannot be parsed (or parses without a data field), or the
parsed data field is JSON null — Python returns the data field itself, and
a null field is the same object as `None`.  In every other case it returns
the stored payload.  The function is total, so none of these cases raises
an error to the caller. -/
theorem c6_load_absent_iff (fs : FileSys) (now : Int) (k : String) :
    (load_from_cache fs now k = none ↔
      (fs k = none ∨ ∃ f, fs k = some f ∧
        (cacheTTL ≤ now - f.mtime ∨ f.parsed = none ∨ f.parsed = some Json.null)))
    ∧ ∀ f d, fs k = some f → f.parsed = some d → d ≠ Json.null →
        now - f.mtime < cacheTTL → load_from_cache fs now k = some d := by
  cases hfk : fs k with
  | none =>
    have hl : load_from_cache fs now k = none := by
      unfold load_from_cache is_cache_valid
      rw [hfk]
      rfl
    refine ⟨⟨fun _ => Or.inl rfl, fun _ => hl⟩, ?_⟩
    intro f d hf _ _ _
    exact Option.noConfusion hf
  | some f =>
    have hl := load_eq_of_some fs now k f hfk
    by_cases hv : now - f.mtime < cacheTTL
    · cases hp : f.parsed with
      | none =>
        have hln : load_from_cache fs now k = none := by
          rw [hl, if_pos hv, hp]
        refine ⟨⟨fun _ => Or.inr ⟨f, rfl, Or.inr (Or.inl hp)⟩, fun _ => hln⟩, ?_⟩
        intro f' d hf' hd _ _
        injection hf' with he
        rw [← he, hp] at hd
        exact Option.noConfusion hd
      | some d =>
        by_cases hdn : d = Json.null
        · have hln : load_from_cache fs now k = none := by
            rw [hl, if_pos hv, hp, hdn]
            exact rfl
          refine ⟨⟨fun _ => Or.inr ⟨f, rfl, Or.inr (Or.inr (by rw [hp, hdn]))⟩,
            fun _ => hln⟩, ?_⟩
          intro f' d' hf' hd' hdn' _
          injection hf' with he
          rw [← he, hp] at hd'
          injection hd' with he2
          exact absurd (he2 ▸ hdn) hdn'
        · have hls : load_from_cache fs now k = some d := by
            rw [hl, if_pos hv, hp]
            exact dataToPython_of_ne_null d hdn
          refine ⟨⟨fun hle => ?_, fun hR => ?_⟩, ?_⟩
          · rw [hls] at hle
            exact Option.noConfusion hle
          · rcases hR with h1 | ⟨f', hf', hcase⟩
            · exact Option.noConfusion h1
            · injection hf' with he
              rcases hcase with hle | hpn | hpnull
              · rw [← he] at hle
                exact absurd hv (not_lt.mpr hle)
              · rw [← he, hp] at hpn
                exact Option.noConfusion hpn
              · rw [← he, hp] at hpnull
                injection hpnull with he2
                exact absurd he2 hdn
          · intro f' d' hf' hd' _ _
            injection hf' with he
            rw [← he, hp] at hd'
            injection hd' with he2
            rw [hls, he2]
    · have hln : load_from_cache fs now k = none := by rw [hl, if_neg hv]
      refine ⟨⟨fun _ => Or.inr ⟨f, rfl, Or.inl (not_lt.mp hv)⟩, fun _ => hln⟩, ?_⟩
      intro f' d hf' _ _ hv'
      injection hf' with he
      rw [← he] at hv'
      exact absurd hv' hv

theorem c6_load_absent_iff_witness :
    load_from_cache c6freshFs 1 "cache-key-w" = some (Json.str "payload") := by
  exact (c6_load_absent_iff c6freshFs 1 "cache-key-w").2
    ⟨0, some (Json.str "payload")⟩ (Json.str "payload") rfl rfl
    (fun h => Json.noConfusion h) (by decide)

end MBTA
